import Mathlib

/-!
Shallow embedding of `src/native_ext/backtest_core.c` (module `btcore`).

Doubles are modelled as exact rationals; the NAN sentinel is modelled by
`Option ℚ` with `none` for NAN, so that every IEEE comparison involving NAN
is false, and NAN contaminates sums permanently (as it does in the C running
sum of `compute_sma`).
-/

namespace BTCore

/-- Initial capital, hard-coded in the C source (line 58). -/
def initial_cash : ℚ := 10000

/-- Numeric tolerance `eps = 1e-12` (line 66). -/
def eps : ℚ := 1 / 1000000000000

/-- Quantity rounding granularity `lot_round = 1e-8` (line 67). -/
def lot_round : ℚ := 1 / 100000000

/-- C helper `maxd` (line 7): `a>b?a:b`. -/
def maxd (a b : ℚ) : ℚ := if a > b then a else b

/-- C helper `clamp_nonneg` (line 8). The `isnan(x)` disjunct has no rational
counterpart, since `none` never reaches this function. -/
def clamp_nonneg (x : ℚ) : ℚ := if x < 0 then 0 else x

/-- NAN-propagating addition on doubles. -/
def oAdd : Option ℚ → Option ℚ → Option ℚ
  | some a, some b => some (a + b)
  | _, _ => none

/-- NAN-propagating subtraction on doubles. -/
def oSub : Option ℚ → Option ℚ → Option ℚ
  | some a, some b => some (a - b)
  | _, _ => none

/-- One update of the running sum of `compute_sma` (lines 18-19):
add `x[i]`, and once `i >= w` subtract the price leaving the window. -/
def smaUpd (x : List (Option ℚ)) (w : ℕ) (s : Option ℚ) (i : ℕ) : Option ℚ :=
  let t := oAdd s (x.getD i none)
  if w ≤ i then oSub t (x.getD (i - w) none) else t

/-- Running sum of `compute_sma` after processing index `i` (starts from 0). -/
def smaAcc (x : List (Option ℚ)) (w : ℕ) : ℕ → Option ℚ
  | 0 => smaUpd x w (some 0) 0
  | i + 1 => smaUpd x w (smaAcc x w i) (i + 1)

/-- C `compute_sma` (lines 11-22): identity for `w <= 1`, otherwise
`out[i] = s/w` when `i+1 >= w` and NAN before the window fills. -/
def computeSMAo (x : List (Option ℚ)) (w : ℕ) : List (Option ℚ) :=
  if w ≤ 1 then x
  else (List.range x.length).map fun i =>
    if w ≤ i + 1 then (smaAcc x w i).map (fun q => q / (w : ℚ)) else none

/-- Portfolio state of `ma_cross_backtest` (lines 58-63). -/
structure BTState where
  cash : ℚ
  pos : ℚ
  entry : Option ℚ
  peak : ℚ
  maxdd : ℚ
  trades : ℕ
  wins : ℕ
deriving Repr, DecidableEq

/-- Sanitized parameters of `ma_cross_backtest` (windows are kept separate). -/
structure BTParams where
  fee_rate : ℚ
  slip_bps : ℚ
  tp : ℚ
  sl : ℚ
deriving Repr, DecidableEq

/-- Initial portfolio state (lines 58-63). -/
def initState : BTState :=
  { cash := initial_cash, pos := 0, entry := none, peak := initial_cash,
    maxdd := 0, trades := 0, wins := 0 }

/-- Exit fill (lines 82-89, 118-125 and 141-148): sell the whole position at
the slippage-adjusted price, pay the fee, count the trade and a win when the
fill price beats the recorded entry price, and go flat. -/
def exitFill (pr : BTParams) (price : ℚ) (st : BTState) : BTState :=
  let p_fill := price * (1 - pr.slip_bps / 10000)
  let proceeds := st.pos * p_fill
  let fee := proceeds * pr.fee_rate
  let wins1 := match st.entry with
    | some e => if p_fill > e then st.wins + 1 else st.wins
    | none => st.wins
  { st with cash := clamp_nonneg (st.cash + (proceeds - fee)),
            pos := 0, entry := none, trades := st.trades + 1, wins := wins1 }

/-- The `hit` flag of the TP/SL check (lines 74-79). -/
def riskHit (pr : BTParams) (price : ℚ) (st : BTState) : Bool :=
  match st.entry with
  | some e =>
      decide (0 < st.pos) &&
        (decide (0 < pr.tp ∧ pr.tp ≤ (price - e) / e) ||
         decide (0 < pr.sl ∧ (price - e) / e ≤ -pr.sl))
  | none => false

/-- TP/SL phase of one candle (lines 74-91). -/
def riskPhase (pr : BTParams) (price : ℚ) (st : BTState) : BTState :=
  if riskHit pr price st then exitFill pr price st else st

/-- IEEE `<=` where a NAN operand makes the comparison false. -/
def oLeB : Option ℚ → Option ℚ → Bool
  | some a, some b => decide (a ≤ b)
  | _, _ => false

/-- IEEE `<` where a NAN operand makes the comparison false. -/
def oLtB : Option ℚ → Option ℚ → Bool
  | some a, some b => decide (a < b)
  | _, _ => false

/-- The four `!isnan` checks of lines 95-96. -/
def allDef (pf ps cf cs : Option ℚ) : Bool :=
  pf.isSome && ps.isSome && cf.isSome && cs.isSome

/-- `long_entry` (line 95): all four MA values defined, `pf <= ps`, `cf > cs`. -/
def longEntrySig (pf ps cf cs : Option ℚ) : Bool :=
  allDef pf ps cf cs && oLeB pf ps && oLtB cs cf

/-- `long_exit` (line 96): all four MA values defined, `pf >= ps`, `cf < cs`. -/
def longExitSig (pf ps cf cs : Option ℚ) : Bool :=
  allDef pf ps cf cs && oLeB ps pf && oLtB cf cs

/-- Entry fill attempt (lines 98-116). -/
def entryPhase (pr : BTParams) (price : ℚ) (st : BTState) : BTState :=
  let p_fill := price * (1 + pr.slip_bps / 10000)
  let denom := p_fill * (1 + pr.fee_rate)
  if denom > eps then
    let budget := st.cash
    let qty := (⌊(budget / denom) / lot_round⌋ : ℚ) * lot_round
    if qty > 0 then
      let cost := qty * p_fill
      let fee := cost * pr.fee_rate
      let nc0 := budget - (cost + fee)
      let nc := if nc0 < 0 ∧ |nc0| < 1 / 1000000 then 0 else nc0
      if nc ≥ -eps then
        { st with cash := clamp_nonneg nc, pos := qty, entry := some p_fill }
      else st
    else st
  else st

/-- Signal phase of one candle (lines 98-126): entry when `long_entry` fires
while flat, else exit when `long_exit` fires while long. -/
def signalPhase (pr : BTParams) (price : ℚ) (sigE sigX : Bool) (st : BTState) :
    BTState :=
  if sigE ∧ st.pos ≤ 0 then entryPhase pr price st
  else if sigX ∧ 0 < st.pos then exitFill pr price st
  else st

/-- Drawdown update of one candle (lines 128-134). -/
def mddPhase (price : ℚ) (st : BTState) : BTState :=
  let equity := st.cash + st.pos * price
  let peak1 := maxd st.peak equity
  let maxdd1 :=
    if peak1 > 0 then
      let dd := (peak1 - equity) / peak1
      if dd > st.maxdd then dd else st.maxdd
    else st.maxdd
  { st with peak := peak1, maxdd := maxdd1 }

/-- One loop iteration of `ma_cross_backtest` (lines 69-135): skip the candle
when its price is NAN or non-positive, otherwise run the TP/SL check, the
signal check and the drawdown update in that order. -/
def stepCandle (pr : BTParams) (f s px : List (Option ℚ)) (i : ℕ)
    (st : BTState) : BTState :=
  match px.getD i none with
  | none => st
  | some price =>
      if 0 < price then
        mddPhase price (signalPhase pr price
          (longEntrySig (f.getD (i - 1) none) (s.getD (i - 1) none)
            (f.getD i none) (s.getD i none))
          (longExitSig (f.getD (i - 1) none) (s.getD (i - 1) none)
            (f.getD i none) (s.getD i none))
          (riskPhase pr price st))
      else st

/-- The whole candle loop, indices `1` to `n-1` (line 69). -/
def runLoop (pr : BTParams) (f s px : List (Option ℚ)) : BTState :=
  (List.range' 1 (px.length - 1)).foldl
    (fun st i => stepCandle pr f s px i st) initState

/-- All states observed by the loop: the initial one and the state after each
candle. -/
def runTrace (pr : BTParams) (f s px : List (Option ℚ)) : List BTState :=
  (List.range' 1 (px.length - 1)).scanl
    (fun st i => stepCandle pr f s px i st) initState

/-- Forced end-of-series liquidation (lines 137-150): exit at the last candle
price, skipped when that price is NAN or non-positive. -/
def liquidate (pr : BTParams) (last : Option ℚ) (st : BTState) : BTState :=
  if 0 < st.pos then
    match last with
    | some l => if 0 < l then exitFill pr l st else st
    | none => st
  else st

/-- Final portfolio state of `ma_cross_backtest` on an accepted input:
parameter clamping (lines 36-39), the length check (line 46), the two SMA
series, the loop and the forced liquidation. `none` on a rejected input. -/
def btFinalState (prices : List (Option ℚ)) (fast slow : ℤ)
    (fee slip tp sl : ℚ) : Option BTState :=
  let fast1 := if fast < 1 then 1 else fast
  let slow1 := if slow < fast1 then fast1 else slow
  let fee1 := if fee < 0 then 0 else fee
  let fee2 := if fee1 > 1 / 20 then 1 / 20 else fee1
  let slip1 := if slip < 0 then 0 else slip
  let slip2 := if slip1 > 1000 then 1000 else slip1
  if (prices.length : ℤ) < slow1 + 2 then none
  else
    let f := computeSMAo prices fast1.toNat
    let s := computeSMAo prices slow1.toNat
    let pr : BTParams := ⟨fee2, slip2, tp, sl⟩
    some (liquidate pr (prices.getD (prices.length - 1) none)
      (runLoop pr f s prices))

/-- Result record of `ma_cross_backtest` (lines 152-167). -/
structure BTResult where
  final_equity : ℚ
  total_return : ℚ
  max_drawdown : ℚ
  n_trades : ℕ
  win_rate : ℚ
deriving Repr, DecidableEq

/-- C `ma_cross_backtest`: the aggregated result record (lines 152-167). -/
def maCrossBacktest (prices : List (Option ℚ)) (fast slow : ℤ)
    (fee slip tp sl : ℚ) : Option BTResult :=
  (btFinalState prices fast slow fee slip tp sl).map fun st =>
    let fe := if 0 ≤ st.cash then st.cash else 0
    { final_equity := fe,
      total_return := if 0 < initial_cash then fe / initial_cash - 1 else 0,
      max_drawdown := st.maxdd,
      n_trades := st.trades,
      win_rate := if 0 < st.trades then (st.wins : ℚ) / (st.trades : ℚ) else 0 }

/-- Joint numeric invariant of the simulation state: non-negative cash and
position, positive equity peak, drawdown fraction in `[0, 1]`. -/
def GoodSt (st : BTState) : Prop :=
  0 ≤ st.cash ∧ 0 ≤ st.pos ∧ 0 < st.peak ∧ 0 ≤ st.maxdd ∧ st.maxdd ≤ 1

/-- The position/entry-price coupling invariant: a positive position is held
exactly when an entry price is recorded. -/
def PosEntryOk (st : BTState) : Prop := 0 < st.pos ↔ st.entry.isSome = true

/-- Zero-cost parameters with TP and SL disabled. -/
def pr0 : BTParams := ⟨0, 0, -1, -1⟩

/-- Price series whose last candle price is zero while a position is open. -/
def pxA : List (Option ℚ) := [some 1, some 1, some 2, some 0]

/-- Price series of tiny positive prices, below the `eps` entry guard. -/
def pxB : List (Option ℚ) :=
  [some (1 / 10000000000000), some (1 / 10000000000000),
   some (2 / 10000000000000), some (2 / 10000000000000)]

/-- Price series with one upward cross on the final candle. -/
def pxC : List (Option ℚ) := [some 1, some 1, some 1, some 2]

/-- Price series with NAN candles and a positive final price. -/
def pxW : List (Option ℚ) := [none, none, some 1]

/-- Parameters with a 2 percent take-profit, no fee, no slippage. -/
def prT : BTParams := ⟨0, 0, 1 / 50, -1⟩

/-- A long state: one unit held at entry price 100. -/
def stT : BTState := ⟨0, 1, some 100, 10000, 0, 0, 0⟩

/-- An all-NAN moving-average series of length 2. -/
def fW : List (Option ℚ) := [none, none]

/-- A two-candle price series at 110. -/
def pxT : List (Option ℚ) := [some 110, some 110]

/-- Parameters with the maximal 5 percent fee, no slippage, TP/SL disabled. -/
def prC : BTParams := ⟨1 / 20, 0, -1, -1⟩

end BTCore

namespace BTCore

lemma clamp_nonneg_nonneg (x : ℚ) : 0 ≤ clamp_nonneg x := by
  unfold clamp_nonneg
  split
  · exact le_rfl
  · exact le_of_not_lt (by assumption)

lemma self_mem_scanl {α β : Type} (f : β → α → β) (b : β) (l : List α) :
    b ∈ List.scanl f b l := by
  cases l <;> simp [List.scanl]

lemma scanl_head_eq {α β : Type} (f : β → α → β) (b : β) (l : List α) :
    (List.scanl f b l).head? = some b := by
  cases l <;> simp [List.scanl]

lemma foldl_inv {α β : Type} (P : β → Prop) (f : β → α → β)
    (hf : ∀ b a, P b → P (f b a)) :
    ∀ (l : List α) (b : β), P b → P (l.foldl f b) := by
  intro l
  induction l with
  | nil => intro b hb; simpa using hb
  | cons a t ih => intro b hb; rw [List.foldl_cons]; exact ih _ (hf b a hb)

lemma scanl_inv {α β : Type} (P : β → Prop) (f : β → α → β)
    (hf : ∀ b a, P b → P (f b a)) :
    ∀ (l : List α) (b : β), P b → ∀ x ∈ List.scanl f b l, P x := by
  intro l
  induction l with
  | nil =>
      intro b hb x hx
      simp [List.scanl] at hx
      simpa [hx] using hb
  | cons a t ih =>
      intro b hb x hx
      rw [List.scanl] at hx
      rcases List.mem_cons.mp hx with h | h
      · simpa [h] using hb
      · exact ih (f b a) (hf b a hb) x h

lemma chain_scanl {α β : Type} (R : β → β → Prop) (f : β → α → β)
    (hf : ∀ b a, R b (f b a)) :
    ∀ (l : List α) (b : β), List.Chain' R (List.scanl f b l) := by
  intro l
  induction l with
  | nil => intro b; simp [List.scanl]
  | cons a t ih =>
      intro b
      rw [List.scanl, List.chain'_cons']
      refine ⟨?_, ih (f b a)⟩
      intro y hy
      rw [scanl_head_eq] at hy
      simp only [Option.mem_def, Option.some.injEq] at hy
      rw [← hy]
      exact hf b a

lemma exitFill_pos (pr : BTParams) (price : ℚ) (st : BTState) :
    (exitFill pr price st).pos = 0 := rfl

lemma exitFill_entry (pr : BTParams) (price : ℚ) (st : BTState) :
    (exitFill pr price st).entry = none := rfl

lemma exitFill_trades (pr : BTParams) (price : ℚ) (st : BTState) :
    (exitFill pr price st).trades = st.trades + 1 := rfl

lemma exitFill_peak (pr : BTParams) (price : ℚ) (st : BTState) :
    (exitFill pr price st).peak = st.peak := rfl

lemma exitFill_maxdd (pr : BTParams) (price : ℚ) (st : BTState) :
    (exitFill pr price st).maxdd = st.maxdd := rfl

lemma exitFill_cash_nonneg (pr : BTParams) (price : ℚ) (st : BTState) :
    0 ≤ (exitFill pr price st).cash := clamp_nonneg_nonneg _

lemma exitFill_pe (pr : BTParams) (price : ℚ) (st : BTState) :
    PosEntryOk (exitFill pr price st) := by
  unfold PosEntryOk
  rw [exitFill_pos, exitFill_entry]
  simp

lemma entryPhase_peak (pr : BTParams) (price : ℚ) (st : BTState) :
    (entryPhase pr price st).peak = st.peak := by
  simp only [entryPhase]
  split_ifs <;> rfl

lemma entryPhase_maxdd (pr : BTParams) (price : ℚ) (st : BTState) :
    (entryPhase pr price st).maxdd = st.maxdd := by
  simp only [entryPhase]
  split_ifs <;> rfl

lemma entryPhase_trades (pr : BTParams) (price : ℚ) (st : BTState) :
    (entryPhase pr price st).trades = st.trades := by
  simp only [entryPhase]
  split_ifs <;> rfl

lemma entryPhase_wins (pr : BTParams) (price : ℚ) (st : BTState) :
    (entryPhase pr price st).wins = st.wins := by
  simp only [entryPhase]
  split_ifs <;> rfl

lemma entryPhase_cash_nonneg (pr : BTParams) (price : ℚ) (st : BTState)
    (h : 0 ≤ st.cash) : 0 ≤ (entryPhase pr price st).cash := by
  simp only [entryPhase]
  split_ifs <;> first | exact h | exact clamp_nonneg_nonneg _

lemma entryPhase_pos_nonneg (pr : BTParams) (price : ℚ) (st : BTState)
    (h : 0 ≤ st.pos) : 0 ≤ (entryPhase pr price st).pos := by
  simp only [entryPhase]
  split_ifs with h1 h2 h3 <;> first | exact h | exact le_of_lt h2

lemma entryPhase_pe (pr : BTParams) (price : ℚ) (st : BTState)
    (h : PosEntryOk st) : PosEntryOk (entryPhase pr price st) := by
  simp only [entryPhase]
  split_ifs with h1 h2
  all_goals first
    | exact h
    | (unfold PosEntryOk
       simp only [Option.isSome_some, iff_true]
       exact h2)

lemma riskPhase_peak (pr : BTParams) (price : ℚ) (st : BTState) :
    (riskPhase pr price st).peak = st.peak := by
  unfold riskPhase
  split
  · exact exitFill_peak pr price st
  · rfl

lemma riskPhase_maxdd (pr : BTParams) (price : ℚ) (st : BTState) :
    (riskPhase pr price st).maxdd = st.maxdd := by
  unfold riskPhase
  split
  · exact exitFill_maxdd pr price st
  · rfl

lemma riskPhase_cash_nonneg (pr : BTParams) (price : ℚ) (st : BTState)
    (h : 0 ≤ st.cash) : 0 ≤ (riskPhase pr price st).cash := by
  unfold riskPhase
  split
  · exact exitFill_cash_nonneg pr price st
  · exact h

lemma riskPhase_pos_nonneg (pr : BTParams) (price : ℚ) (st : BTState)
    (h : 0 ≤ st.pos) : 0 ≤ (riskPhase pr price st).pos := by
  unfold riskPhase
  split
  · rw [exitFill_pos]
  · exact h

lemma riskPhase_pe (pr : BTParams) (price : ℚ) (st : BTState)
    (h : PosEntryOk st) : PosEntryOk (riskPhase pr price st) := by
  unfold riskPhase
  split
  · exact exitFill_pe pr price st
  · exact h

lemma signalPhase_peak (pr : BTParams) (price : ℚ) (sigE sigX : Bool)
    (st : BTState) : (signalPhase pr price sigE sigX st).peak = st.peak := by
  unfold signalPhase
  split_ifs <;> first | exact entryPhase_peak pr price st
                      | exact exitFill_peak pr price st | rfl

lemma signalPhase_maxdd (pr : BTParams) (price : ℚ) (sigE sigX : Bool)
    (st : BTState) : (signalPhase pr price sigE sigX st).maxdd = st.maxdd := by
  unfold signalPhase
  split_ifs <;> first | exact entryPhase_maxdd pr price st
                      | exact exitFill_maxdd pr price st | rfl

lemma signalPhase_cash_nonneg (pr : BTParams) (price : ℚ) (sigE sigX : Bool)
    (st : BTState) (h : 0 ≤ st.cash) :
    0 ≤ (signalPhase pr price sigE sigX st).cash := by
  unfold signalPhase
  split_ifs <;> first | exact entryPhase_cash_nonneg pr price st h
                      | exact exitFill_cash_nonneg pr price st | exact h

lemma signalPhase_pos_nonneg (pr : BTParams) (price : ℚ) (sigE sigX : Bool)
    (st : BTState) (h : 0 ≤ st.pos) :
    0 ≤ (signalPhase pr price sigE sigX st).pos := by
  unfold signalPhase
  split_ifs <;> first | exact entryPhase_pos_nonneg pr price st h
                      | simp [exitFill_pos] | exact h

lemma signalPhase_pe (pr : BTParams) (price : ℚ) (sigE sigX : Bool)
    (st : BTState) (h : PosEntryOk st) :
    PosEntryOk (signalPhase pr price sigE sigX st) := by
  unfold signalPhase
  split_ifs <;> first | exact entryPhase_pe pr price st h
                      | exact exitFill_pe pr price st | exact h

lemma mddPhase_cash (price : ℚ) (st : BTState) :
    (mddPhase price st).cash = st.cash := rfl

lemma mddPhase_pos (price : ℚ) (st : BTState) :
    (mddPhase price st).pos = st.pos := rfl

lemma mddPhase_entry (price : ℚ) (st : BTState) :
    (mddPhase price st).entry = st.entry := rfl

lemma mddPhase_trades (price : ℚ) (st : BTState) :
    (mddPhase price st).trades = st.trades := rfl

lemma mddPhase_wins (price : ℚ) (st : BTState) :
    (mddPhase price st).wins = st.wins := rfl

lemma mddPhase_pe (price : ℚ) (st : BTState) (h : PosEntryOk st) :
    PosEntryOk (mddPhase price st) := by
  unfold PosEntryOk at h ⊢
  rw [mddPhase_pos, mddPhase_entry]
  exact h

lemma mddPhase_maxdd_mono (price : ℚ) (st : BTState) :
    st.maxdd ≤ (mddPhase price st).maxdd := by
  show st.maxdd ≤
    (if maxd st.peak (st.cash + st.pos * price) > 0 then
      if (maxd st.peak (st.cash + st.pos * price) - (st.cash + st.pos * price)) /
            maxd st.peak (st.cash + st.pos * price) > st.maxdd then
        (maxd st.peak (st.cash + st.pos * price) - (st.cash + st.pos * price)) /
          maxd st.peak (st.cash + st.pos * price)
      else st.maxdd
    else st.maxdd)
  split_ifs with h1 h2
  · exact le_of_lt h2
  · exact le_rfl
  · exact le_rfl

lemma maxd_left_le (a b : ℚ) : a ≤ maxd a b := by
  unfold maxd
  split
  · exact le_rfl
  · exact le_of_not_lt (by assumption)

lemma maxd_right_le (a b : ℚ) : b ≤ maxd a b := by
  unfold maxd
  split
  · exact le_of_lt (by assumption)
  · exact le_rfl

lemma mddPhase_peak_pos (price : ℚ) (st : BTState) (h : 0 < st.peak) :
    0 < (mddPhase price st).peak :=
  lt_of_lt_of_le h (maxd_left_le _ _)

lemma mddPhase_good (price : ℚ) (st : BTState) (hp : 0 < price)
    (h : GoodSt st) : GoodSt (mddPhase price st) := by
  obtain ⟨hc, hq, hpk, hm0, hm1⟩ := h
  have hequity : 0 ≤ st.cash + st.pos * price :=
    add_nonneg hc (mul_nonneg hq (le_of_lt hp))
  have hpk1 : 0 < maxd st.peak (st.cash + st.pos * price) :=
    lt_of_lt_of_le hpk (maxd_left_le _ _)
  have hle : st.cash + st.pos * price ≤ maxd st.peak (st.cash + st.pos * price) :=
    maxd_right_le _ _
  have hdd0 : 0 ≤ (maxd st.peak (st.cash + st.pos * price) -
      (st.cash + st.pos * price)) / maxd st.peak (st.cash + st.pos * price) :=
    div_nonneg (by linarith) (le_of_lt hpk1)
  have hdd1 : (maxd st.peak (st.cash + st.pos * price) -
      (st.cash + st.pos * price)) / maxd st.peak (st.cash + st.pos * price) ≤ 1 := by
    rw [div_le_one hpk1]
    linarith
  have hmdef : (mddPhase price st).maxdd =
      if maxd st.peak (st.cash + st.pos * price) > 0 then
        if (maxd st.peak (st.cash + st.pos * price) - (st.cash + st.pos * price)) /
              maxd st.peak (st.cash + st.pos * price) > st.maxdd then
          (maxd st.peak (st.cash + st.pos * price) - (st.cash + st.pos * price)) /
            maxd st.peak (st.cash + st.pos * price)
        else st.maxdd
      else st.maxdd := rfl
  refine ⟨hc, hq, mddPhase_peak_pos price st hpk, ?_, ?_⟩
  · rw [hmdef]
    split_ifs <;> first | exact hdd0 | exact hm0
  · rw [hmdef]
    split_ifs <;> first | exact hdd1 | exact hm1

lemma exitFill_good (pr : BTParams) (price : ℚ) (st : BTState)
    (h : GoodSt st) : GoodSt (exitFill pr price st) := by
  obtain ⟨hc, hq, hpk, hm0, hm1⟩ := h
  refine ⟨exitFill_cash_nonneg pr price st, ?_, ?_, ?_, ?_⟩
  · simp [exitFill_pos]
  · rw [exitFill_peak]; exact hpk
  · rw [exitFill_maxdd]; exact hm0
  · rw [exitFill_maxdd]; exact hm1

lemma entryPhase_good (pr : BTParams) (price : ℚ) (st : BTState)
    (h : GoodSt st) : GoodSt (entryPhase pr price st) := by
  obtain ⟨hc, hq, hpk, hm0, hm1⟩ := h
  exact ⟨entryPhase_cash_nonneg pr price st hc,
    entryPhase_pos_nonneg pr price st hq,
    by rw [entryPhase_peak]; exact hpk,
    by rw [entryPhase_maxdd]; exact hm0,
    by rw [entryPhase_maxdd]; exact hm1⟩

lemma riskPhase_good (pr : BTParams) (price : ℚ) (st : BTState)
    (h : GoodSt st) : GoodSt (riskPhase pr price st) := by
  unfold riskPhase
  split
  · exact exitFill_good pr price st h
  · exact h

lemma signalPhase_good (pr : BTParams) (price : ℚ) (sigE sigX : Bool)
    (st : BTState) (h : GoodSt st) :
    GoodSt (signalPhase pr price sigE sigX st) := by
  unfold signalPhase
  split_ifs
  · exact entryPhase_good pr price st h
  · exact exitFill_good pr price st h
  · exact h

lemma stepCandle_good (pr : BTParams) (f s px : List (Option ℚ)) (i : ℕ)
    (st : BTState) (h : GoodSt st) : GoodSt (stepCandle pr f s px i st) := by
  unfold stepCandle
  split
  · exact h
  · split_ifs with hp
    · exact mddPhase_good _ _ hp
        (signalPhase_good _ _ _ _ _ (riskPhase_good _ _ _ h))
    · exact h

lemma stepCandle_pe (pr : BTParams) (f s px : List (Option ℚ)) (i : ℕ)
    (st : BTState) (h : PosEntryOk st) : PosEntryOk (stepCandle pr f s px i st) := by
  unfold stepCandle
  split
  · exact h
  · split_ifs with hp
    · exact mddPhase_pe _ _
        (signalPhase_pe _ _ _ _ _ (riskPhase_pe _ _ _ h))
    · exact h

lemma stepCandle_maxdd_mono (pr : BTParams) (f s px : List (Option ℚ)) (i : ℕ)
    (st : BTState) : st.maxdd ≤ (stepCandle pr f s px i st).maxdd := by
  unfold stepCandle
  split
  · exact le_rfl
  · rename_i price hx
    split_ifs with hp
    · calc st.maxdd
          = (riskPhase pr price st).maxdd := (riskPhase_maxdd pr price st).symm
        _ = (signalPhase pr price
              (longEntrySig (f.getD (i - 1) none) (s.getD (i - 1) none)
                (f.getD i none) (s.getD i none))
              (longExitSig (f.getD (i - 1) none) (s.getD (i - 1) none)
                (f.getD i none) (s.getD i none))
              (riskPhase pr price st)).maxdd :=
            (signalPhase_maxdd pr price _ _ _).symm
        _ ≤ _ := mddPhase_maxdd_mono price _
    · exact le_rfl

lemma liquidate_peak (pr : BTParams) (last : Option ℚ) (st : BTState) :
    (liquidate pr last st).peak = st.peak := by
  unfold liquidate
  split_ifs with h
  · cases last with
    | none => rfl
    | some l =>
        dsimp only
        split_ifs with hl
        · exact exitFill_peak pr l st
        · rfl
  · rfl

lemma liquidate_maxdd (pr : BTParams) (last : Option ℚ) (st : BTState) :
    (liquidate pr last st).maxdd = st.maxdd := by
  unfold liquidate
  split_ifs with h
  · cases last with
    | none => rfl
    | some l =>
        dsimp only
        split_ifs with hl
        · exact exitFill_maxdd pr l st
        · rfl
  · rfl

lemma liquidate_cash_nonneg (pr : BTParams) (last : Option ℚ) (st : BTState)
    (h : 0 ≤ st.cash) : 0 ≤ (liquidate pr last st).cash := by
  unfold liquidate
  split_ifs with hpos
  · cases last with
    | none => exact h
    | some l =>
        dsimp only
        split_ifs with hl
        · exact exitFill_cash_nonneg pr l st
        · exact h
  · exact h

lemma liquidate_pe (pr : BTParams) (last : Option ℚ) (st : BTState)
    (h : PosEntryOk st) : PosEntryOk (liquidate pr last st) := by
  unfold liquidate
  split_ifs with hpos
  · cases last with
    | none => exact h
    | some l =>
        dsimp only
        split_ifs with hl
        · exact exitFill_pe pr l st
        · exact h
  · exact h

lemma liquidate_pos_zero (pr : BTParams) (l : ℚ) (st : BTState)
    (h : 0 ≤ st.pos) (hl : 0 < l) : (liquidate pr (some l) st).pos = 0 := by
  unfold liquidate
  split_ifs with hpos
  · dsimp only
    rw [if_pos hl]
    exact exitFill_pos pr l st
  · exact le_antisymm (not_lt.mp hpos) h

lemma initState_good : GoodSt initState := by
  unfold GoodSt initState initial_cash
  norm_num

lemma initState_pe : PosEntryOk initState := by
  unfold PosEntryOk initState
  simp

lemma runTrace_good (pr : BTParams) (f s px : List (Option ℚ)) :
    ∀ st ∈ runTrace pr f s px, GoodSt st := by
  intro st hst
  exact scanl_inv GoodSt _ (fun b a hb => stepCandle_good pr f s px a b hb)
    _ initState initState_good st hst

lemma runTrace_pe (pr : BTParams) (f s px : List (Option ℚ)) :
    ∀ st ∈ runTrace pr f s px, PosEntryOk st := by
  intro st hst
  exact scanl_inv PosEntryOk _ (fun b a hb => stepCandle_pe pr f s px a b hb)
    _ initState initState_pe st hst

lemma runLoop_good (pr : BTParams) (f s px : List (Option ℚ)) :
    GoodSt (runLoop pr f s px) :=
  foldl_inv GoodSt _ (fun b a hb => stepCandle_good pr f s px a b hb)
    _ initState initState_good

lemma runLoop_pe (pr : BTParams) (f s px : List (Option ℚ)) :
    PosEntryOk (runLoop pr f s px) :=
  foldl_inv PosEntryOk _ (fun b a hb => stepCandle_pe pr f s px a b hb)
    _ initState initState_pe

lemma oAdd_some (a b : ℚ) : oAdd (some a) (some b) = some (a + b) := rfl

lemma oSub_some (a b : ℚ) : oSub (some a) (some b) = some (a - b) := rfl

lemma getD_map_some (x : List ℚ) (i : ℕ) (h : i < x.length) :
    (x.map some).getD i none = some (x.getD i 0) := by
  induction x generalizing i with
  | nil => simp at h
  | cons a t ih =>
      cases i with
      | zero => simp [List.getD]
      | succ j =>
          simp only [List.getD_cons_succ, List.map_cons]
          exact ih j (by simpa using h)

lemma sum_take_succ (x : List ℚ) (k : ℕ) :
    (x.take (k + 1)).sum = (x.take k).sum + x.getD k 0 := by
  rw [List.take_succ, List.sum_append]
  congr 1
  cases hk : x[k]? with
  | none => simp [List.getD_eq_getElem?_getD, hk]
  | some v => simp [List.getD_eq_getElem?_getD, hk]

lemma sum_drop_take (x : List ℚ) (a b : ℕ) :
    ((x.drop a).take b).sum = (x.take (a + b)).sum - (x.take a).sum := by
  have h := congrArg List.sum (List.take_add x a b)
  rw [List.sum_append] at h
  linarith

lemma getD_range_map {β : Type} (g : ℕ → β) (d : β) (n i : ℕ) (h : i < n) :
    ((List.range n).map g).getD i d = g i := by
  rw [List.getD_eq_getElem?_getD, List.getElem?_map, List.getElem?_range h]
  rfl

lemma smaAcc_some (x : List ℚ) (w : ℕ) (hw : 2 ≤ w) :
    ∀ i, i < x.length →
      smaAcc (x.map some) w i =
        some ((x.take (i + 1)).sum - (x.take (i + 1 - w)).sum) := by
  intro i
  induction i with
  | zero =>
      intro hi
      show smaUpd (x.map some) w (some 0) 0 = _
      simp only [smaUpd]
      rw [if_neg (by omega : ¬ w ≤ 0)]
      rw [getD_map_some x 0 hi, oAdd_some]
      have h2 : 1 - w = 0 := by omega
      rw [h2]
      have h1 := sum_take_succ x 0
      simp only [List.take_zero, List.sum_nil] at h1 ⊢
      rw [h1]
      congr 1
      ring
  | succ i ih =>
      intro hi
      have hi' : i < x.length := Nat.lt_of_succ_lt hi
      show smaUpd (x.map some) w (smaAcc (x.map some) w i) (i + 1) = _
      rw [ih hi']
      simp only [smaUpd]
      rw [getD_map_some x (i + 1) hi, oAdd_some]
      by_cases hcase : w ≤ i + 1
      · rw [if_pos hcase]
        have hlt : i + 1 - w < x.length := by omega
        rw [getD_map_some x (i + 1 - w) hlt, oSub_some]
        congr 1
        have e1 := sum_take_succ x (i + 1)
        have e2 : i + 1 + 1 - w = (i + 1 - w) + 1 := by omega
        have e3 := sum_take_succ x (i + 1 - w)
        rw [e1, e2, e3]
        ring
      · rw [if_neg hcase]
        congr 1
        have e1 := sum_take_succ x (i + 1)
        have e2 : i + 1 - w = 0 := by omega
        have e4 : i + 1 + 1 - w = 0 := by omega
        rw [e2, e4, e1]
        ring

lemma computeSMAo_one (x : List (Option ℚ)) : computeSMAo x 1 = x := by
  simp [computeSMAo]

lemma computeSMAo_length (x : List (Option ℚ)) (w : ℕ) :
    (computeSMAo x w).length = x.length := by
  unfold computeSMAo
  split_ifs
  · rfl
  · simp

/-- C3: for every price series and every window `w ≥ 1`, `compute_sma`
returns a series of the same length in which entry `i` is undefined when
`i + 1 < w` and otherwise equals the arithmetic mean of
`prices[i-w+1 .. i]`; for `w = 1` the output equals the input unchanged. -/
theorem c3_compute_sma_contract (x : List ℚ) (w : ℕ) (hw : 1 ≤ w) :
    (computeSMAo (x.map some) w).length = x.length ∧
    (∀ i, i < x.length →
      (computeSMAo (x.map some) w).getD i none =
        if i + 1 < w then none
        else some (((x.drop (i + 1 - w)).take w).sum / (w : ℚ))) ∧
    (w = 1 → computeSMAo (x.map some) w = x.map some) := by
  rcases Nat.lt_or_ge w 2 with hw2 | hw2
  · have hw1 : w = 1 := by omega
    subst hw1
    refine ⟨by rw [computeSMAo_one]; simp, ?_, fun _ => computeSMAo_one _⟩
    intro i hi
    rw [computeSMAo_one, getD_map_some x i hi, if_neg (by omega)]
    congr 1
    have hidx : i + 1 - 1 = i := by omega
    rw [hidx, sum_drop_take]
    have e1 := sum_take_succ x i
    push_cast
    rw [div_one]
    linarith
  · have hne : ¬ w ≤ 1 := by omega
    refine ⟨by rw [computeSMAo_length]; simp, ?_, fun h1 => absurd h1 (by omega)⟩
    intro i hi
    unfold computeSMAo
    rw [if_neg hne]
    rw [getD_range_map _ _ _ _ (by simpa using hi)]
    by_cases hc : w ≤ i + 1
    · rw [if_pos hc, if_neg (by omega)]
      rw [smaAcc_some x w hw2 i hi]
      simp only [Option.map_some']
      congr 1
      rw [sum_drop_take]
      have hidx : i + 1 - w + w = i + 1 := by omega
      rw [hidx]
    · rw [if_neg hc, if_pos (by omega)]

/-- Witness for C3: on the series `[1, 2]` with window 2, entry 1 is the
mean `3/2`. -/
theorem c3_witness :
    (computeSMAo ([1, 2].map some) 2).getD 1 none = some (3 / 2) := by
  have h := c3_compute_sma_contract [1, 2] 2 (by norm_num)
  rw [h.2.1 1 (by norm_num)]
  norm_num

lemma sig_characterization (pf ps cf cs : Option ℚ) :
    (longEntrySig pf ps cf cs = true ↔
      ∃ a b c d, pf = some a ∧ ps = some b ∧ cf = some c ∧ cs = some d ∧
        a ≤ b ∧ d < c) ∧
    (longExitSig pf ps cf cs = true ↔
      ∃ a b c d, pf = some a ∧ ps = some b ∧ cf = some c ∧ cs = some d ∧
        b ≤ a ∧ c < d) ∧
    ((pf = none ∨ ps = none ∨ cf = none ∨ cs = none) →
      longEntrySig pf ps cf cs = false ∧ longExitSig pf ps cf cs = false) := by
  rcases pf with _ | a <;> rcases ps with _ | b <;>
    rcases cf with _ | c <;> rcases cs with _ | d <;>
      simp [longEntrySig, longExitSig, allDef, oLeB, oLtB, and_assoc]

/-- C4: at every candle index `i ≥ 1`, the long-entry signal fires exactly
when all four of `fast[i-1]`, `slow[i-1]`, `fast[i]`, `slow[i]` are defined
with `fast[i-1] ≤ slow[i-1]` and `fast[i] > slow[i]`; the long-exit signal
fires exactly when all four are defined with `fast[i-1] ≥ slow[i-1]` and
`fast[i] < slow[i]`; when any of the four is undefined neither signal is
considered. -/
theorem c4_signal_detection (f s : List (Option ℚ)) (i : ℕ) (hi : 1 ≤ i) :
    (longEntrySig (f.getD (i - 1) none) (s.getD (i - 1) none)
        (f.getD i none) (s.getD i none) = true ↔
      ∃ a b c d, f.getD (i - 1) none = some a ∧ s.getD (i - 1) none = some b ∧
        f.getD i none = some c ∧ s.getD i none = some d ∧ a ≤ b ∧ d < c) ∧
    (longExitSig (f.getD (i - 1) none) (s.getD (i - 1) none)
        (f.getD i none) (s.getD i none) = true ↔
      ∃ a b c d, f.getD (i - 1) none = some a ∧ s.getD (i - 1) none = some b ∧
        f.getD i none = some c ∧ s.getD i none = some d ∧ b ≤ a ∧ c < d) ∧
    ((f.getD (i - 1) none = none ∨ s.getD (i - 1) none = none ∨
        f.getD i none = none ∨ s.getD i none = none) →
      longEntrySig (f.getD (i - 1) none) (s.getD (i - 1) none)
          (f.getD i none) (s.getD i none) = false ∧
      longExitSig (f.getD (i - 1) none) (s.getD (i - 1) none)
          (f.getD i none) (s.getD i none) = false) :=
  sig_characterization (f.getD (i - 1) none) (s.getD (i - 1) none)
    (f.getD i none) (s.getD i none)

/-- Witness for C4: on concrete series the entry signal fires at index 1
where `1 ≤ 2` and `3 > 2`. -/
theorem c4_witness :
    longEntrySig (([some 1, some 3] : List (Option ℚ)).getD (1 - 1) none)
      (([some 2, some 2] : List (Option ℚ)).getD (1 - 1) none)
      (([some 1, some 3] : List (Option ℚ)).getD 1 none)
      (([some 2, some 2] : List (Option ℚ)).getD 1 none) = true := by
  have h := c4_signal_detection [some 1, some 3] [some 2, some 2] 1 (by norm_num)
  exact h.1.mpr ⟨1, 2, 3, 2, by simp [List.getD], by simp [List.getD],
    by simp [List.getD], by simp [List.getD], by norm_num, by norm_num⟩

/-- C5: within a single candle the TP/SL risk-exit check runs before the
crossover-signal check, and when the risk-exit fires the position is already
flat in the signal phase, so no signal-exit executes on that candle: the
trade counter rises by exactly the one risk-exit trade. -/
theorem c5_risk_exit_priority (pr : BTParams) (f s px : List (Option ℚ))
    (i : ℕ) (st : BTState) (price : ℚ)
    (hpx : px.getD i none = some price) (hp : 0 < price)
    (hhit : riskHit pr price st = true) :
    (riskPhase pr price st).pos = 0 ∧
    stepCandle pr f s px i st =
      mddPhase price (signalPhase pr price
        (longEntrySig (f.getD (i - 1) none) (s.getD (i - 1) none)
          (f.getD i none) (s.getD i none))
        (longExitSig (f.getD (i - 1) none) (s.getD (i - 1) none)
          (f.getD i none) (s.getD i none))
        (riskPhase pr price st)) ∧
    (stepCandle pr f s px i st).trades = st.trades + 1 := by
  have hpos0 : (riskPhase pr price st).pos = 0 := by
    unfold riskPhase
    rw [if_pos hhit]
    exact exitFill_pos pr price st
  have hstep : stepCandle pr f s px i st =
      mddPhase price (signalPhase pr price
        (longEntrySig (f.getD (i - 1) none) (s.getD (i - 1) none)
          (f.getD i none) (s.getD i none))
        (longExitSig (f.getD (i - 1) none) (s.getD (i - 1) none)
          (f.getD i none) (s.getD i none))
        (riskPhase pr price st)) := by
    unfold stepCandle
    rw [hpx]
    dsimp only
    rw [if_pos hp]
  refine ⟨hpos0, hstep, ?_⟩
  rw [hstep, mddPhase_trades]
  have htr : (signalPhase pr price
      (longEntrySig (f.getD (i - 1) none) (s.getD (i - 1) none)
        (f.getD i none) (s.getD i none))
      (longExitSig (f.getD (i - 1) none) (s.getD (i - 1) none)
        (f.getD i none) (s.getD i none))
      (riskPhase pr price st)).trades = (riskPhase pr price st).trades := by
    unfold signalPhase
    split_ifs with a1 a2
    · exact entryPhase_trades pr price _
    · exact absurd (hpos0 ▸ a2.2) (lt_irrefl 0)
    · rfl
  rw [htr]
  unfold riskPhase
  rw [if_pos hhit]
  exact exitFill_trades pr price st

/-- Witness for C5: a concrete take-profit hit at price 110 from entry 100. -/
theorem c5_witness :
    (riskPhase prT 110 stT).pos = 0 ∧
    stepCandle prT fW fW pxT 1 stT =
      mddPhase 110 (signalPhase prT 110
        (longEntrySig (fW.getD (1 - 1) none) (fW.getD (1 - 1) none)
          (fW.getD 1 none) (fW.getD 1 none))
        (longExitSig (fW.getD (1 - 1) none) (fW.getD (1 - 1) none)
          (fW.getD 1 none) (fW.getD 1 none))
        (riskPhase prT 110 stT)) ∧
    (stepCandle prT fW fW pxT 1 stT).trades = stT.trades + 1 :=
  c5_risk_exit_priority prT fW fW pxT 1 stT 110 (by simp [pxT, List.getD])
    (by norm_num) (by norm_num [riskHit, prT, stT])

/-- C6: for every input, cash is non-negative at every observable point:
at every loop-trace state, after the mid-candle risk-exit fill, after any
exit fill, and after the forced liquidation. -/
theorem c6_cash_nonneg (pr : BTParams) (f s px : List (Option ℚ)) :
    (∀ st ∈ runTrace pr f s px, 0 ≤ st.cash) ∧
    (∀ (price : ℚ) (st : BTState), 0 ≤ st.cash →
      0 ≤ (riskPhase pr price st).cash) ∧
    (∀ (last : Option ℚ) (st : BTState), 0 ≤ st.cash →
      0 ≤ (liquidate pr last st).cash) ∧
    0 ≤ (liquidate pr (px.getD (px.length - 1) none) (runLoop pr f s px)).cash := by
  refine ⟨?_, ?_, ?_, ?_⟩
  · intro st hst
    exact (runTrace_good pr f s px st hst).1
  · intro price st h
    exact riskPhase_cash_nonneg pr price st h
  · intro last st h
    exact liquidate_cash_nonneg pr last st h
  · exact liquidate_cash_nonneg _ _ _ (runLoop_good pr f s px).1

/-- Witness for C6: the initial trace state has non-negative cash. -/
theorem c6_witness : 0 ≤ initState.cash :=
  (c6_cash_nonneg pr0 [] [] pxW).1 initState (self_mem_scanl _ _ _)

/-- C7: `max_drawdown` starts at 0, never decreases from one candle to the
next, and lies in `[0, 1]` at every trace state and after liquidation. -/
theorem c7_maxdd_invariant (pr : BTParams) (f s px : List (Option ℚ)) :
    initState.maxdd = 0 ∧
    (∀ (st : BTState) (i : ℕ), st.maxdd ≤ (stepCandle pr f s px i st).maxdd) ∧
    List.Chain' (fun a b => a.maxdd ≤ b.maxdd) (runTrace pr f s px) ∧
    (∀ st ∈ runTrace pr f s px, 0 ≤ st.maxdd ∧ st.maxdd ≤ 1) ∧
    (0 ≤ (liquidate pr (px.getD (px.length - 1) none) (runLoop pr f s px)).maxdd ∧
      (liquidate pr (px.getD (px.length - 1) none) (runLoop pr f s px)).maxdd ≤ 1) := by
  refine ⟨rfl, ?_, ?_, ?_, ?_⟩
  · intro st i
    exact stepCandle_maxdd_mono pr f s px i st
  · exact chain_scanl _ _ (fun b a => stepCandle_maxdd_mono pr f s px a b)
      _ initState
  · intro st hst
    exact ⟨(runTrace_good pr f s px st hst).2.2.2.1,
      (runTrace_good pr f s px st hst).2.2.2.2⟩
  · rw [liquidate_maxdd]
    exact ⟨(runLoop_good pr f s px).2.2.2.1, (runLoop_good pr f s px).2.2.2.2⟩

/-- Witness for C7: the initial trace state has drawdown within bounds. -/
theorem c7_witness : 0 ≤ initState.maxdd ∧ initState.maxdd ≤ 1 :=
  (c7_maxdd_invariant pr0 [] [] pxW).2.2.2.1 initState (self_mem_scanl _ _ _)

/-- C8: at every observable state, a positive position is held exactly when
an entry price is recorded; every exit fill resets both together, and an
entry fill that executes records the slippage-adjusted fill price. -/
theorem c8_pos_entry_coupling (pr : BTParams) (f s px : List (Option ℚ)) :
    (∀ st ∈ runTrace pr f s px, (0 < st.pos ↔ st.entry.isSome = true)) ∧
    (0 < (liquidate pr (px.getD (px.length - 1) none) (runLoop pr f s px)).pos ↔
      (liquidate pr (px.getD (px.length - 1) none)
        (runLoop pr f s px)).entry.isSome = true) ∧
    (∀ (pr2 : BTParams) (price : ℚ) (st : BTState),
      (exitFill pr2 price st).pos = 0 ∧ (exitFill pr2 price st).entry = none) ∧
    (∀ (pr2 : BTParams) (price : ℚ) (st : BTState),
      entryPhase pr2 price st = st ∨
        (0 < (entryPhase pr2 price st).pos ∧
          (entryPhase pr2 price st).entry =
            some (price * (1 + pr2.slip_bps / 10000)))) := by
  refine ⟨?_, ?_, ?_, ?_⟩
  · intro st hst
    exact runTrace_pe pr f s px st hst
  · exact liquidate_pe pr _ _ (runLoop_pe pr f s px)
  · intro pr2 price st
    exact ⟨exitFill_pos pr2 price st, exitFill_entry pr2 price st⟩
  · intro pr2 price st
    simp only [entryPhase]
    split_ifs with h1 h2
    all_goals first
      | (left; rfl)
      | (right; exact ⟨h2, rfl⟩)

/-- Witness for C8: the coupling holds at the initial trace state. -/
theorem c8_witness : 0 < initState.pos ↔ initState.entry.isSome = true :=
  (c8_pos_entry_coupling pr0 [] [] pxW).1 initState (self_mem_scanl _ _ _)

lemma clamp_of_nonneg {x : ℚ} (h : 0 ≤ x) : clamp_nonneg x = x := by
  unfold clamp_nonneg
  rw [if_neg (not_lt.mpr h)]

lemma floor_lot_mul_le {c d : ℚ} (hc : 0 ≤ c) (hd : 0 < d) :
    (⌊(c / d) / lot_round⌋ : ℚ) * lot_round * d ≤ c := by
  have hl : (0 : ℚ) < lot_round := by norm_num [lot_round]
  have h1 : ((⌊(c / d) / lot_round⌋ : ℤ) : ℚ) ≤ (c / d) / lot_round :=
    Int.floor_le _
  have h2 : (⌊(c / d) / lot_round⌋ : ℚ) * lot_round ≤ ((c / d) / lot_round) * lot_round :=
    mul_le_mul_of_nonneg_right h1 (le_of_lt hl)
  have h3 : ((c / d) / lot_round) * lot_round = c / d :=
    div_mul_cancel₀ _ (ne_of_gt hl)
  have h4 : (⌊(c / d) / lot_round⌋ : ℚ) * lot_round ≤ c / d := h2.trans_eq h3
  calc (⌊(c / d) / lot_round⌋ : ℚ) * lot_round * d
      ≤ (c / d) * d := mul_le_mul_of_nonneg_right h4 (le_of_lt hd)
    _ = c := div_mul_cancel₀ _ (ne_of_gt hd)

/-- C9: with zero fee and zero slippage, an entry fill followed by an exit
fill at the same price returns cash exactly to its original value (the
lot-size dust stays in cash at entry and the purchased quantity is bought
and sold at the same price). -/
theorem c9_zero_cost_roundtrip (st : BTState) (p : ℚ)
    (hc : 0 ≤ st.cash) (hpos : st.pos = 0) (hp : 0 < p) :
    (exitFill pr0 p (entryPhase pr0 p st)).cash = st.cash := by
  simp only [entryPhase, pr0]
  norm_num
  have hqp : (⌊st.cash / p / lot_round⌋ : ℚ) * lot_round * p ≤ st.cash :=
    floor_lot_mul_le hc hp
  have hA : ¬(st.cash < (⌊st.cash / p / lot_round⌋ : ℚ) * lot_round * p ∧
      |st.cash - (⌊st.cash / p / lot_round⌋ : ℚ) * lot_round * p| < 1 / 1000000) :=
    fun h => absurd h.1 (not_lt.mpr hqp)
  simp only [if_neg hA]
  split_ifs with h1 h2 h3
  · simp only [exitFill]
    norm_num
    rw [clamp_of_nonneg (by linarith :
      (0 : ℚ) ≤ st.cash - (⌊st.cash / p / lot_round⌋ : ℚ) * lot_round * p)]
    rw [sub_add_cancel]
    exact clamp_of_nonneg hc
  · simp only [exitFill]
    norm_num
    rw [hpos]
    norm_num
    exact clamp_of_nonneg hc
  · simp only [exitFill]
    norm_num
    rw [hpos]
    norm_num
    exact clamp_of_nonneg hc
  · simp only [exitFill]
    norm_num
    rw [hpos]
    norm_num
    exact clamp_of_nonneg hc

/-- Witness for C9: round trip at price 2 from 10000 in cash. -/
theorem c9_witness :
    (exitFill pr0 2 (entryPhase pr0 2 ⟨10000, 0, none, 10000, 0, 0, 0⟩)).cash
      = 10000 :=
  c9_zero_cost_roundtrip ⟨10000, 0, none, 10000, 0, 0, 0⟩ 2 (by norm_num) rfl
    (by norm_num)

lemma smaC_eval : computeSMAo pxC 2 = [none, some 1, some 1, some (3 / 2)] := by
  norm_num [computeSMAo, pxC, List.range_succ, smaAcc, smaUpd, oAdd, oSub,
    List.getD_cons_succ, List.getD_cons_zero]

lemma stepC1 :
    stepCandle prC pxC [none, some 1, some 1, some (3 / 2)] pxC 1 initState
      = initState := by
  norm_num [stepCandle, pxC, List.getD_cons_succ, List.getD_cons_zero,
    riskPhase, riskHit, signalPhase, longEntrySig, longExitSig, allDef,
    oLeB, oLtB, entryPhase, exitFill, mddPhase, maxd, clamp_nonneg,
    initState, initial_cash, prC, eps, lot_round]

lemma stepC2 :
    stepCandle prC pxC [none, some 1, some 1, some (3 / 2)] pxC 2 initState
      = initState := by
  norm_num [stepCandle, pxC, List.getD_cons_succ, List.getD_cons_zero,
    riskPhase, riskHit, signalPhase, longEntrySig, longExitSig, allDef,
    oLeB, oLtB, entryPhase, exitFill, mddPhase, maxd, clamp_nonneg,
    initState, initial_cash, prC, eps, lot_round]

lemma stepC3 :
    stepCandle prC pxC [none, some 1, some 1, some (3 / 2)] pxC 3 initState
      = ⟨1 / 100000000, 47619047619 / 10000000, some 2, 10000,
          47619047619 / 1000000000000, 0, 0⟩ := by
  norm_num [stepCandle, pxC, List.getD_cons_succ, List.getD_cons_zero,
    riskPhase, riskHit, signalPhase, longEntrySig, longExitSig, allDef,
    oLeB, oLtB, entryPhase, exitFill, mddPhase, maxd, clamp_nonneg,
    initState, initial_cash, prC, eps, lot_round]

lemma runLoopC :
    runLoop prC pxC [none, some 1, some 1, some (3 / 2)] pxC
      = ⟨1 / 100000000, 47619047619 / 10000000, some 2, 10000,
          47619047619 / 1000000000000, 0, 0⟩ := by
  have hr : List.range' 1 (pxC.length - 1) = [1, 2, 3] := rfl
  unfold runLoop
  rw [hr]
  simp only [List.foldl_cons, List.foldl_nil]
  rw [stepC1, stepC2, stepC3]

lemma btFinalC :
    btFinalState pxC 1 2 (1 / 20) 0 (-1) (-1)
      = some ⟨904761904762 / 100000000, 0, none, 10000,
          47619047619 / 1000000000000, 1, 0⟩ := by
  have hliq : liquidate prC (some 2)
      ⟨1 / 100000000, 47619047619 / 10000000, some 2, 10000,
        47619047619 / 1000000000000, 0, 0⟩
      = ⟨904761904762 / 100000000, 0, none, 10000,
          47619047619 / 1000000000000, 1, 0⟩ := by
    norm_num [liquidate, exitFill, clamp_nonneg, prC]
  simp only [btFinalState]
  rw [show ((pxC.length : ℤ)) = 4 from rfl]
  norm_num
  rw [computeSMAo_one pxC]
  rw [show computeSMAo pxC (Int.toNat 2) = [none, some 1, some 1, some (3 / 2)]
      from smaC_eval]
  rw [show (⟨1 / 20, 0, -1, -1⟩ : BTParams) = prC from rfl]
  rw [runLoopC]
  rw [show (pxC[pxC.length - 1]?.getD none) = some 2 from rfl]
  rw [hliq]
  norm_num

lemma smaA_eval : computeSMAo pxA 2 = [none, some 1, some (3 / 2), some 1] := by
  norm_num [computeSMAo, pxA, List.range_succ, smaAcc, smaUpd, oAdd, oSub,
    List.getD_cons_succ, List.getD_cons_zero]

lemma stepA1 :
    stepCandle pr0 pxA [none, some 1, some (3 / 2), some 1] pxA 1 initState
      = initState := by
  norm_num [stepCandle, pxA, List.getD_cons_succ, List.getD_cons_zero,
    riskPhase, riskHit, signalPhase, longEntrySig, longExitSig, allDef,
    oLeB, oLtB, entryPhase, exitFill, mddPhase, maxd, clamp_nonneg,
    initState, initial_cash, pr0, eps, lot_round]

lemma stepA2 :
    stepCandle pr0 pxA [none, some 1, some (3 / 2), some 1] pxA 2 initState
      = ⟨0, 5000, some 2, 10000, 0, 0, 0⟩ := by
  norm_num [stepCandle, pxA, List.getD_cons_succ, List.getD_cons_zero,
    riskPhase, riskHit, signalPhase, longEntrySig, longExitSig, allDef,
    oLeB, oLtB, entryPhase, exitFill, mddPhase, maxd, clamp_nonneg,
    initState, initial_cash, pr0, eps, lot_round]

lemma stepA3 :
    stepCandle pr0 pxA [none, some 1, some (3 / 2), some 1] pxA 3
      ⟨0, 5000, some 2, 10000, 0, 0, 0⟩ = ⟨0, 5000, some 2, 10000, 0, 0, 0⟩ := by
  norm_num [stepCandle, pxA, List.getD_cons_succ, List.getD_cons_zero]

lemma runLoopA :
    runLoop pr0 pxA [none, some 1, some (3 / 2), some 1] pxA
      = ⟨0, 5000, some 2, 10000, 0, 0, 0⟩ := by
  have hr : List.range' 1 (pxA.length - 1) = [1, 2, 3] := rfl
  unfold runLoop
  rw [hr]
  simp only [List.foldl_cons, List.foldl_nil]
  rw [stepA1, stepA2, stepA3]

lemma btFinalA :
    btFinalState pxA 1 2 0 0 (-1) (-1)
      = some ⟨0, 5000, some 2, 10000, 0, 0, 0⟩ := by
  have hliq : liquidate pr0 (some 0) ⟨0, 5000, some 2, 10000, 0, 0, 0⟩
      = ⟨0, 5000, some 2, 10000, 0, 0, 0⟩ := by
    norm_num [liquidate]
  simp only [btFinalState]
  rw [show ((pxA.length : ℤ)) = 4 from rfl]
  norm_num
  rw [computeSMAo_one pxA]
  rw [show computeSMAo pxA (Int.toNat 2) = [none, some 1, some (3 / 2), some 1]
      from smaA_eval]
  rw [show (⟨0, 0, -1, -1⟩ : BTParams) = pr0 from rfl]
  rw [runLoopA]
  rw [show (pxA[pxA.length - 1]?.getD none) = some 0 from rfl]
  rw [hliq]

/-- C1 counterexample: on the accepted input `pxA` (last candle price 0)
with fee 0, slippage 0 and windows 1 and 2, the state at the point where
`final_equity` is computed still holds `position_qty = 5000 > 0`: the forced
liquidation was skipped, so the position is not always closed there. -/
theorem c1_counterexample :
    (btFinalState pxA 1 2 0 0 (-1) (-1)).elim False
      (fun st => st.pos = 5000 ∧ 0 < st.pos) := by
  rw [btFinalA]
  norm_num [Option.elim]

/-- C1 (amended): for every accepted input the reported `final_equity`
equals the final cash balance clamped to be non-negative, and whenever the
last candle price is positive the position is closed at that point; when
that price is non-positive or NAN while a position is open, the forced
liquidation is skipped and the position stays open. -/
theorem c1_final_equity (prices : List (Option ℚ)) (fast slow : ℤ)
    (fee slip tp sl : ℚ) (st : BTState)
    (hrun : btFinalState prices fast slow fee slip tp sl = some st) :
    (maCrossBacktest prices fast slow fee slip tp sl).map BTResult.final_equity
      = some (if 0 ≤ st.cash then st.cash else 0) ∧
    (∀ l : ℚ, prices.getD (prices.length - 1) none = some l → 0 < l →
      st.pos = 0) := by
  constructor
  · unfold maCrossBacktest
    rw [hrun]
    rfl
  · intro l hl hlpos
    simp only [btFinalState] at hrun
    split_ifs at hrun
    all_goals first
      | exact Option.noConfusion hrun
      | (rw [Option.some.injEq] at hrun
         rw [← hrun, hl]
         exact liquidate_pos_zero _ l _ (runLoop_good _ _ _ _).2.1 hlpos)

lemma stepW1 : stepCandle pr0 pxW pxW pxW 1 initState = initState := by
  norm_num [stepCandle, pxW, List.getD_cons_succ, List.getD_cons_zero]

lemma stepW2 : stepCandle pr0 pxW pxW pxW 2 initState = initState := by
  norm_num [stepCandle, pxW, List.getD_cons_succ, List.getD_cons_zero,
    riskPhase, riskHit, signalPhase, longEntrySig, longExitSig, allDef,
    oLeB, oLtB, entryPhase, exitFill, mddPhase, maxd, clamp_nonneg,
    initState, initial_cash, pr0, eps, lot_round]

lemma btFinalW : btFinalState pxW 1 1 0 0 (-1) (-1) = some initState := by
  have hr : List.range' 1 (pxW.length - 1) = [1, 2] := rfl
  have hrun : runLoop pr0 pxW pxW pxW = initState := by
    unfold runLoop
    rw [hr]
    simp only [List.foldl_cons, List.foldl_nil]
    rw [stepW1, stepW2]
  have hliq : liquidate pr0 (some 1) initState = initState := by
    norm_num [liquidate, initState]
  simp only [btFinalState]
  rw [show ((pxW.length : ℤ)) = 3 from rfl]
  norm_num
  rw [computeSMAo_one pxW]
  rw [show (⟨0, 0, -1, -1⟩ : BTParams) = pr0 from rfl]
  rw [hrun]
  rw [show (pxW[pxW.length - 1]?.getD none) = some 1 from rfl]
  rw [hliq]

/-- Witness for C1 (amended): a run whose last candle price is positive ends
flat, with `final_equity` equal to the clamped cash. -/
theorem c1_witness :
    (maCrossBacktest pxW 1 1 0 0 (-1) (-1)).map BTResult.final_equity
      = some (if 0 ≤ initState.cash then initState.cash else 0) ∧
    initState.pos = 0 := by
  have h := c1_final_equity pxW 1 1 0 0 (-1) (-1) initState btFinalW
  exact ⟨h.1, h.2 1
    (by norm_num [pxW, List.getD_cons_succ, List.getD_cons_zero])
    (by norm_num)⟩

lemma smaB_eval : computeSMAo pxB 2 =
    [none, some (1 / 10000000000000), some (3 / 20000000000000),
      some (2 / 10000000000000)] := by
  norm_num [computeSMAo, pxB, List.range_succ, smaAcc, smaUpd, oAdd, oSub,
    List.getD_cons_succ, List.getD_cons_zero]

lemma stepB2 :
    stepCandle pr0 pxB
      [none, some (1 / 10000000000000), some (3 / 20000000000000),
        some (2 / 10000000000000)] pxB 2 initState = initState := by
  norm_num [stepCandle, pxB, List.getD_cons_succ, List.getD_cons_zero,
    riskPhase, riskHit, signalPhase, longEntrySig, longExitSig, allDef,
    oLeB, oLtB, entryPhase, exitFill, mddPhase, maxd, clamp_nonneg,
    initState, initial_cash, pr0, eps, lot_round]

/-- C2 counterexample: at the tiny positive price `2e-13` (accepted input
`pxB`, fee 0, slippage 0) the entry signal fires while flat, the resulting
quantity is positive and the resulting cash after cost plus fee is `0`, well
above the `-1e-12` tolerance, yet the entry is skipped (the candle leaves
the state unchanged): the code has an additional guard
`fill_price * (1 + fee_rate) > 1e-12` that the claim omits. -/
theorem c2_counterexample :
    (let p : ℚ := 2 / 10000000000000
     let qty : ℚ := (⌊(initial_cash / p) / lot_round⌋ : ℚ) * lot_round
     longEntrySig ((computeSMAo pxB 1).getD 1 none)
       ((computeSMAo pxB 2).getD 1 none)
       ((computeSMAo pxB 1).getD 2 none)
       ((computeSMAo pxB 2).getD 2 none) = true ∧
     0 < qty ∧ -eps ≤ initial_cash - (qty * p + qty * p * 0) ∧
     entryPhase pr0 p initState = initState ∧
     stepCandle pr0 (computeSMAo pxB 1) (computeSMAo pxB 2) pxB 2 initState
       = initState) := by
  dsimp only
  refine ⟨?_, ?_, ?_, ?_, ?_⟩
  · rw [computeSMAo_one pxB, smaB_eval]
    norm_num [longEntrySig, allDef, oLeB, oLtB, pxB,
      List.getD_cons_succ, List.getD_cons_zero]
  · norm_num [initial_cash, lot_round]
  · norm_num [initial_cash, lot_round, eps]
  · norm_num [entryPhase, pr0, eps, initState, initial_cash, lot_round]
  · rw [computeSMAo_one pxB, smaB_eval]
    exact stepB2

/-- C2 (amended): the attempted entry executes exactly when the denominator
guard `fill_price * (1 + fee_rate) > 1e-12` passes, the resulting quantity
is positive, and the resulting cash after cost plus fee (with the sub-1e-6
negative residue clamped to zero) is at least `-1e-12`; in every other case
the entry is skipped and the state is unchanged. -/
theorem c2_entry_conditions (pr : BTParams) (price : ℚ) (st : BTState) :
    (let p_fill := price * (1 + pr.slip_bps / 10000)
     let denom := p_fill * (1 + pr.fee_rate)
     let qty := (⌊(st.cash / denom) / lot_round⌋ : ℚ) * lot_round
     let nc0 := st.cash - (qty * p_fill + qty * p_fill * pr.fee_rate)
     let nc := if nc0 < 0 ∧ |nc0| < 1 / 1000000 then 0 else nc0
     entryPhase pr price st =
       if denom > eps ∧ qty > 0 ∧ nc ≥ -eps then
         { st with cash := clamp_nonneg nc, pos := qty, entry := some p_fill }
       else st) := by
  dsimp only
  simp only [entryPhase]
  split_ifs <;> first | rfl | tauto

/-- C10: the forced liquidation step leaves `peak_equity` and `max_drawdown`
unchanged (it modifies only cash, position, entry price and the counters),
and consequently on a concrete run the final cash lies strictly below
`peak_equity * (1 - max_drawdown)`: the drawdown report never reflects the
cost of the forced liquidation fill. -/
theorem c10_liquidation_frame :
    (∀ (pr : BTParams) (last : Option ℚ) (st : BTState),
      (liquidate pr last st).peak = st.peak ∧
      (liquidate pr last st).maxdd = st.maxdd) ∧
    (btFinalState pxC 1 2 (1 / 20) 0 (-1) (-1)).elim False
      (fun st => st.cash < st.peak * (1 - st.maxdd)) := by
  constructor
  · intro pr last st
    exact ⟨liquidate_peak pr last st, liquidate_maxdd pr last st⟩
  · rw [btFinalC]
    norm_num [Option.elim]

end BTCore
